import Mathlib

/-!
# Verification of `kornia/augmentation/container/augment.py` (`AugmentationSequential`)

Shallow embedding of the multi-modality augmentation dispatcher.

The source file defines `AugmentationSequential`, which routes a pipeline of
augmentation transforms over several co-registered data modalities (pixel
tensors, masks, bounding boxes, keypoints).  The routing decisions are made by
`isinstance` checks against the kornia class hierarchy:

  * `_AugmentationBase` ⊃ `IntensityAugmentationBase2D` ⊃ `RandomErasing`
  * `_AugmentationBase` ⊃ `GeometricAugmentationBase2D`
  * `SequentialBase` ⊃ `ImageSequential` ⊃ `VideoSequential`, `PatchSequential`

We model the runtime type of a module as an inductive `Module`, whose
constructors are the leaves of that hierarchy that the dispatcher can
distinguish, and reproduce each `isinstance` test as a Boolean predicate.

External collaborators that live outside this source file
(`ApplyInverse.apply_by_key` / `inverse_by_key`, `ImageSequential.forward`,
`forward_parameters`, `autofill_dim`, `Boxes.from_tensor` / `to_tensor`,
`contains_label_operations`) are modelled as explicit function parameters
collected in the structure `Externals`: the dispatcher under verification is
parametric in them, exactly as the spec declares them out of scope.

Tensors are modelled by their shape together with an abstract flat payload;
`torch.Tensor.view` only reinterprets the shape, which is all the dispatcher
itself does with tensors (the video branch folds/unfolds the leading
temporal dimension).
-/

namespace KorniaAug

/-- The `DataKey` enum from `kornia.constants`, restricted to the members accepted
by `AugmentationSequential` (`"input", "mask", "bbox", "bbox_xyxy",
"bbox_xywh", "keypoints"`). -/
inductive DataKey where
  | input
  | mask
  | bbox
  | bbox_xyxy
  | bbox_xywh
  | keypoints
  deriving Repr, DecidableEq

/-- Python `dcate in DataKey`: membership of an enum member in its own enum
class is always `True`, and every `dcate` reaching the dispatcher is a
`DataKey` member (produced by `DataKey.get`). -/
def DataKey.isMember (_ : DataKey) : Bool := true

/-- Runtime type of a transform module, as far as the dispatcher's
`isinstance` checks can distinguish it.

  * `intensity erasing` — an `IntensityAugmentationBase2D`; `erasing = true`
    iff it is moreover a `RandomErasing`.
  * `geometric` — a `GeometricAugmentationBase2D`.
  * `imageSeq io` — a plain `ImageSequential` whose `is_intensity_only()`
    returns `io`.
  * `videoSeq io` — a `VideoSequential` (subclass of `ImageSequential`).
  * `patchSeq io` — a `PatchSequential` (subclass of `ImageSequential`).
  * `otherSeq` — a `SequentialBase` that is none of the above.
  * `unknown` — any other module. -/
inductive Module where
  | intensity (erasing : Bool)
  | geometric
  | imageSeq (intensityOnly : Bool)
  | videoSeq (intensityOnly : Bool)
  | patchSeq (intensityOnly : Bool)
  | otherSeq
  | unknown
  deriving Repr, DecidableEq

namespace Module

/-- Python `isinstance(module, IntensityAugmentationBase2D)`. -/
def isIntensity2D : Module → Bool
  | intensity _ => true
  | _ => false

/-- Python `isinstance(module, RandomErasing)` (`RandomErasing` subclasses
`IntensityAugmentationBase2D`). -/
def isRandomErasing : Module → Bool
  | intensity e => e
  | _ => false

/-- Python `isinstance(module, GeometricAugmentationBase2D)`. -/
def isGeometric2D : Module → Bool
  | geometric => true
  | _ => false

/-- Python `isinstance(module, ImageSequential)`; `VideoSequential` and
`PatchSequential` are subclasses of `ImageSequential`. -/
def isImageSequential : Module → Bool
  | imageSeq _ => true
  | videoSeq _ => true
  | patchSeq _ => true
  | _ => false

/-- Python `isinstance(module, VideoSequential)`. -/
def isVideoSequential : Module → Bool
  | videoSeq _ => true
  | _ => false

/-- Python `isinstance(module, PatchSequential)`. -/
def isPatchSequential : Module → Bool
  | patchSeq _ => true
  | _ => false

/-- Python `isinstance(module, SequentialBase)`; `ImageSequential` subclasses
`SequentialBase`. -/
def isSequentialBase : Module → Bool
  | imageSeq _ => true
  | videoSeq _ => true
  | patchSeq _ => true
  | otherSeq => true
  | _ => false

/-- Python `isinstance(module, (_AugmentationBase, ImageSequential))`: both
2D augmentation bases subclass `_AugmentationBase`. -/
def isAugBaseOrImageSeq : Module → Bool
  | intensity _ => true
  | geometric => true
  | imageSeq _ => true
  | videoSeq _ => true
  | patchSeq _ => true
  | _ => false

/-- Python `module.is_intensity_only()` for sequential containers (only ever
consulted after an `isinstance(module, ImageSequential)` guard). -/
def isIntensityOnly : Module → Bool
  | imageSeq io => io
  | videoSeq io => io
  | patchSeq io => io
  | _ => false

end Module

/-- A tensor, modelled by its shape and its flat data buffer.
`torch.Tensor.view` reinterprets the shape and leaves the buffer alone, which
is the only tensor operation the dispatcher performs itself. -/
structure Tensor where
  shape : List Nat
  data : List Int
  deriving Repr, DecidableEq

namespace Tensor

/-- The element count `t.numel()` as determined by the shape. -/
def numel (t : Tensor) : Nat := t.shape.prod

/-- Python `t.size(0)`. -/
def size0 (t : Tensor) : Nat := t.shape.headD 0

/-- Torch `t.view(-1, *rest)`: the `-1` dimension is inferred from the element
count.  (Modelled on the shapes where `view` is defined; the theorems that
use it carry the divisibility hypotheses under which the inference is
exact.) -/
def viewInferFirst (t : Tensor) (rest : List Nat) : Tensor :=
  ⟨t.numel / rest.prod :: rest, t.data⟩

/-- Torch `t.view(b, -1, *rest)`: the `-1` dimension is inferred from the element
count. -/
def viewInferSecond (t : Tensor) (b : Nat) (rest : List Nat) : Tensor :=
  ⟨b :: t.numel / (b * rest.prod) :: rest, t.data⟩

end Tensor

/-- One record of the parameter ledger (`ParamItem`): the name identifying
the producing sub-transform, and its sampled parameter payload (opaque to the
dispatcher, of an arbitrary type `P`). -/
structure ParamItem (P : Type) where
  name : String
  data : P
  deriving Repr, DecidableEq

/-- The error conditions `AugmentationSequential` raises, one constructor per
`raise` site relevant to the embedded code. -/
inductive AugError where
  /-- Python `AssertionError`: number of inputs does not align with `data_keys`. -/
  | arityMismatch
  /-- Python `IndexError`: `self.data_keys[0]` on an empty `data_keys` list. -/
  | indexError
  /-- Python `NotImplementedError` in `__init__`: the first input must be `INPUT`. -/
  | firstKeyNotInput
  /-- Python `ValueError` in `forward`: `params` must be provided whilst `INPUT` is
  not in `data_keys`. -/
  | paramsRequired
  /-- Python `ValueError` in `inverse`: no parameters available for inversing. -/
  | missingParams
  /-- Python `NotImplementedError`: geometric involved `PatchSequential` is not
  supported. -/
  | patchNotSupported
  /-- Python `ValueError`: unsupported `Sequential`. -/
  | unsupportedSequential
  /-- Python `NotImplementedError`: this data key is not implemented for this
  module. -/
  | notImplementedForKey
  deriving Repr, DecidableEq

/-- External collaborators of the dispatcher, declared out of scope by the
spec and living outside this source file.  The embedded code is parametric in
them.

  * `modules` — `self.get_submodule(name)`, resolving a ledger record's name
    to the transform module (and `get_forward_sequence`, which pairs each
    record with that module).
  * `applyToInput` — `self.apply_to_input(input, label, module, param)`.
  * `applyByKey` — `ApplyInverse.apply_by_key(input, label, module, param,
    dcate)`.
  * `inverseByKey` — `ApplyInverse.inverse_by_key(input, module, param,
    dcate)`; in `inverse` the param can have been replaced by `None`, hence
    the `Option`.
  * `superForward` — `ImageSequential.forward(input, label, params=params)`
    on the pixel modality; the `Bool` is the `self.return_label` flag it
    leaves behind, which `forward` reads to unpack the result.
  * `forwardParameters` — `self.forward_parameters(out_shape)`, the random
    sampler producing a fresh ledger.
  * `containsLabelOperations` — `self.contains_label_operations(params)`.
  * `autofillDim` — `self.autofill_dim(inp, dim_range)`, returning the
    normalized `out_shape` fed to the sampler.
  * `boxFromTensor` — `Boxes.from_tensor(arg, mode).data`, the canonical
    `(B, N, 4, 2)` box tensor.
  * `boxToTensor` — `boxes.to_tensor()` after writing the processed data
    back, converting to the caller's encoding `mode`. -/
structure Externals (P : Type) where
  modules : String → Module
  applyToInput : Tensor → Option Tensor → Module → ParamItem P → Tensor × Option Tensor
  applyByKey : Tensor → Option Tensor → Module → Option (ParamItem P) → DataKey → Tensor × Option Tensor
  inverseByKey : Tensor → Module → Option (ParamItem P) → DataKey → Tensor
  superForward : Tensor → Option Tensor → List (ParamItem P) → Tensor × Option Tensor × Bool
  forwardParameters : List Nat → List (ParamItem P)
  containsLabelOperations : List (ParamItem P) → Bool
  autofillDim : Tensor → Nat → Nat → List Nat
  boxFromTensor : String → Tensor → Tensor
  boxToTensor : String → Tensor → Tensor

variable {P : Type}

/-- One iteration of the per-modality loop of `forward`
(`augment.py` lines 355–377): dispatch one ledger record for one modality,
threading `(input, label)`. -/
def forwardStep (E : Externals P) (dcate : DataKey) (st : Tensor × Option Tensor)
    (param : ParamItem P) : Except AugError (Tensor × Option Tensor) :=
  let module := E.modules param.name
  if dcate = DataKey.input then
    .ok (E.applyToInput st.1 st.2 module param)
  else if module.isIntensity2D && dcate.isMember && !module.isRandomErasing then
    .ok st  -- Do nothing
  else if module.isImageSequential && module.isIntensityOnly && dcate.isMember then
    .ok st  -- Do nothing
  else if module.isVideoSequential && !(dcate = DataKey.input ∨ dcate = DataKey.mask : Bool) then
    let input := st.1
    let batch_size := input.size0
    let input := input.viewInferFirst (input.shape.drop 2)
    let r := E.applyByKey input st.2 module (some param) dcate
    let input := r.1.viewInferSecond batch_size (r.1.shape.drop 1)
    .ok (input, r.2)
  else if module.isPatchSequential then
    .error .patchNotSupported
  else if (module.isGeometric2D || module.isImageSequential || module.isRandomErasing)
      && dcate.isMember then
    .ok (E.applyByKey st.1 st.2 module (some param) dcate)
  else if module.isSequentialBase then
    .error .unsupportedSequential
  else
    .error .notImplementedForKey

/-- One iteration of the per-modality loop of `inverse`
(`augment.py` lines 212–235): dispatch one ledger record for one modality.
The loop walks `get_forward_sequence(params)` reversed zipped with the
reversed ledger, so each iteration sees the record and the module it names.
The `param = params[name] if name in params else param` line is a no-op
(`name`, a string, is never equal to a `ParamItem` tuple, so the membership
test is always false); the preceding `isinstance` guard replaces `param` by
`None` for modules that are neither augmentations nor `ImageSequential`. -/
def inverseStep (E : Externals P) (dcate : DataKey) (input : Tensor)
    (param : ParamItem P) : Except AugError Tensor :=
  let module := E.modules param.name
  let param : Option (ParamItem P) :=
    if module.isAugBaseOrImageSeq then some param else none
  if module.isIntensity2D && dcate.isMember && !module.isRandomErasing then
    .ok input  -- Do nothing
  else if module.isImageSequential && module.isIntensityOnly && dcate.isMember then
    .ok input  -- Do nothing
  else if module.isVideoSequential && !(dcate = DataKey.input ∨ dcate = DataKey.mask : Bool) then
    let batch_size := input.size0
    let input := input.viewInferFirst (input.shape.drop 2)
    let input := E.inverseByKey input module param dcate
    .ok (input.viewInferSecond batch_size (input.shape.drop 1))
  else if module.isPatchSequential then
    .error .patchNotSupported
  else if (module.isGeometric2D || module.isImageSequential || module.isRandomErasing)
      && dcate.isMember then
    .ok (E.inverseByKey input module param dcate)
  else if module.isSequentialBase then
    .error .unsupportedSequential
  else
    .error .notImplementedForKey

/-- One modality's full forward pass over the ledger: the
`for param in params` loop of `forward`, in ledger order. -/
def forwardModality (E : Externals P) (dcate : DataKey) (ps : List (ParamItem P))
    (st : Tensor × Option Tensor) : Except AugError (Tensor × Option Tensor) :=
  ps.foldlM (forwardStep E dcate) st

/-- One modality's full inverse pass over the ledger: the
`for (name, module), param in zip_longest(seq[::-1], params[::-1])` loop of
`inverse`, in reverse ledger order. -/
def inverseModality (E : Externals P) (dcate : DataKey) (ps : List (ParamItem P))
    (input : Tensor) : Except AugError Tensor :=
  ps.reverse.foldlM (inverseStep E dcate) input

/-- The result of `_arguments_preproc` for one argument: `INPUT`, `MASK` and
`KEYPOINTS` tensors pass through; bounding boxes are wrapped into a
`Boxes` object holding the canonical `(B, N, 4, 2)` data tensor, tagged
with the conversion `mode` chosen from the data key. -/
inductive PreArg where
  | plain (t : Tensor)
  | boxed (mode : String) (t : Tensor)
  deriving Repr, DecidableEq

/-- The tensor the dispatch loops operate on: `arg.data` for boxes
(the `(B, N, 4, 2)` tensor), the argument itself otherwise. -/
def PreArg.dataOf : PreArg → Tensor
  | .plain t => t
  | .boxed _ t => t

/-- Method `_arguments_preproc` (`augment.py` lines 270–287): route each argument by
its data key, building the unified box representation for the three box
encodings.  The `else` arm (`NotImplementedError` for an unrecognized key)
is unreachable here because `DataKey` holds exactly the recognized keys. -/
def argumentsPreproc (E : Externals P) (args : List Tensor) (dk : List DataKey) :
    List PreArg :=
  (args.zip dk).map fun ad =>
    match ad.2 with
    | .input => .plain ad.1
    | .mask => .plain ad.1
    | .keypoints => .plain ad.1
    | .bbox => .boxed "vertices_plus" (E.boxFromTensor "vertices_plus" ad.1)
    | .bbox_xyxy => .boxed "xyxy" (E.boxFromTensor "xyxy" ad.1)
    | .bbox_xywh => .boxed "xywh" (E.boxFromTensor "xywh" ad.1)

/-- Repack one processed modality (`augment.py` lines 379–383 and 236–240):
boxes are written back into the `Boxes` object and converted to the caller's
encoding; other modalities are returned as-is. -/
def packOutput (E : Externals P) (arg : PreArg) (t : Tensor) : Tensor :=
  match arg with
  | .plain _ => t
  | .boxed mode _ => E.boxToTensor mode t

/-- The mutable fields of an `AugmentationSequential` instance that the
embedded methods read or write:

  * `dataKeys` — `self.data_keys`, set in `__init__` and overwritten by
    `forward` when an explicit `data_keys` argument is given.
  * `storedParams` — `self._params`, the ledger retained by the most recent
    forward pass over the pixel modality (`ImageSequential.forward` stores
    the params it ran with); `none` before any forward pass.
  * `returnLabel` — `self.return_label`.
  * `containsVideoSequential` — `self.contains_video_sequential`, fixed at
    construction. -/
structure AugState (P : Type) where
  dataKeys : List DataKey
  storedParams : Option (List (ParamItem P))
  returnLabel : Bool
  containsVideoSequential : Bool
  deriving Repr

/-- Method `__init__` (`augment.py` lines 137–169), restricted to the state fields
above: normalize and validate `data_keys` (the membership assertion on
line 158 is vacuously satisfied for typed keys; `data_keys[0]` raises
`IndexError` on an empty list, and a first key other than `INPUT` raises
`NotImplementedError`), and record whether any top-level child is a
`VideoSequential`.  The `PatchSequential` warning on line 167 is non-fatal
and carries no state. -/
def init (P : Type) (argMods : List Module) (dataKeys : List DataKey) :
    Except AugError (AugState P) :=
  match dataKeys with
  | [] => .error .indexError
  | k :: _ =>
    if k ≠ DataKey.input then .error .firstKeyNotInput
    else .ok { dataKeys := dataKeys
               storedParams := none
               returnLabel := false
               containsVideoSequential := argMods.any Module.isVideoSequential }

/-- The modality loop of `forward` (`augment.py` lines 346–383): walk the
preprocessed arguments with their keys; entries already produced by the
pixel pass are kept; every other entry is run through the ledger with the
label threaded along, then repacked. -/
def fwdLoop (E : Externals P) (ps : List (ParamItem P))
    (items : List ((PreArg × DataKey) × Option Tensor)) (label : Option Tensor) :
    Except AugError (List Tensor × Option Tensor) :=
  match items with
  | [] => .ok ([], label)
  | (ad, out?) :: rest =>
    match out? with
    | some t => do
      let (ts, l) ← fwdLoop E ps rest label
      .ok (t :: ts, l)
    | none => do
      let r ← forwardModality E ad.2 ps (ad.1.dataOf, label)
      let (ts, l) ← fwdLoop E ps rest r.2
      .ok (packOutput E ad.1 r.1 :: ts, l)

/-- The body of `forward` from line 332 on, given a resolved ledger `ps`:
run the pixel modality through the external sequential container first
(freezing the ledger), then dispatch every remaining modality against it.
Returns the per-modality outputs and the threaded label; the state update
(lines 337 and 344, plus `self._params` retained by the container's own
forward) is applied by `fwd` on top of this. -/
def fwdMain (E : Externals P) (pre : List PreArg) (dk : List DataKey)
    (label : Option Tensor) (ps : List (ParamItem P)) :
    Except AugError (List Tensor × Option Tensor × Bool) :=
  let n := dk.length
  let idx := dk.indexOf DataKey.input
  if DataKey.input ∈ dk then
    let inp := (pre.getD idx (.plain ⟨[], []⟩)).dataOf
    let r := E.superForward inp label ps
    let label := if r.2.2 then r.2.1 else label
    let outputs0 := (List.replicate n (none : Option Tensor)).set idx (some r.1)
    match fwdLoop E ps ((pre.zip dk).zip outputs0) label with
    | .ok (ts, l) => .ok (ts, l, r.2.2)
    | .error e => .error e
  else
    match fwdLoop E ps ((pre.zip dk).zip (List.replicate n none)) label with
    | .ok (ts, l) => .ok (ts, l, false)
    | .error e => .error e

/-- Method `forward` (`augment.py` lines 289–385): resolve `data_keys` (an explicit
argument overwrites `self.data_keys`), check arity, preprocess, resolve the
ledger (explicit `params` bypasses sampling entirely; otherwise the pixel
modality must be present, its shape is normalized by `autofill_dim` with the
video-dependent rank range, and `forward_parameters` samples a fresh
ledger), then run `fwdMain`.  Returns the modality outputs, the label, and
the updated instance state. -/
def fwd (E : Externals P) (s : AugState P) (args : List Tensor)
    (label : Option Tensor) (params? : Option (List (ParamItem P)))
    (dataKeys? : Option (List DataKey)) :
    Except AugError (List Tensor × Option Tensor × AugState P) :=
  let dk := match dataKeys? with
    | none => s.dataKeys
    | some ks => ks
  let s := match dataKeys? with
    | none => s
    | some ks => { s with dataKeys := ks }
  if args.length ≠ dk.length then .error .arityMismatch
  else
    let pre := argumentsPreproc E args dk
    let run := fun (ps : List (ParamItem P)) =>
      match fwdMain E pre dk label ps with
      | .ok (ts, l, rl) =>
        .ok (ts, l,
          { s with
            storedParams := if DataKey.input ∈ dk then some ps else s.storedParams
            returnLabel := (if DataKey.input ∈ dk then rl else s.returnLabel)
              || l.isSome || E.containsLabelOperations ps })
      | .error e => .error e
    match params? with
    | some ps => run ps
    | none =>
      if DataKey.input ∈ dk then
        let inp := (pre.getD (dk.indexOf DataKey.input) (.plain ⟨[], []⟩)).dataOf
        let outShape := if s.containsVideoSequential then E.autofillDim inp 3 5
          else E.autofillDim inp 2 4
        run (E.forwardParameters outShape)
      else .error .paramsRequired

/-- The modality loop of `inverse` (`augment.py` lines 203–240): each
modality is run backwards through the ledger independently, then
repacked. -/
def invCore (E : Externals P) (pre : List PreArg) (dk : List DataKey)
    (ps : List (ParamItem P)) : Except AugError (List Tensor) :=
  (pre.zip dk).mapM fun ad => do
    let t ← inverseModality E ad.2 ps ad.1.dataOf
    pure (packOutput E ad.1 t)

/-- Method `inverse` (`augment.py` lines 171–245): resolve `data_keys` (without
writing it back), check arity, preprocess, then require a ledger — explicit
`params`, or the one retained from the most recent forward pass; with
neither, raise `ValueError` (`missingParams`).  Returns the per-modality
outputs. -/
def inv (E : Externals P) (s : AugState P) (args : List Tensor)
    (params? : Option (List (ParamItem P)))
    (dataKeys? : Option (List DataKey)) : Except AugError (List Tensor) :=
  let dk := match dataKeys? with
    | none => s.dataKeys
    | some ks => ks
  if args.length ≠ dk.length then .error .arityMismatch
  else
    let pre := argumentsPreproc E args dk
    match params? with
    | some ps => invCore E pre dk ps
    | none =>
      match s.storedParams with
      | none => .error .missingParams
      | some ps => invCore E pre dk ps

/-- The classification a dispatcher assigns to one (module, modality) pair:
one constructor per arm of the `if`/`elif` chain. -/
inductive Branch where
  /-- Case `dcate == DataKey.INPUT` (forward loop only): `apply_to_input`. -/
  | inputApply
  /-- Intensity-only transform, not erasing: do nothing. -/
  | skipIntensity
  /-- Intensity-only sequential container: do nothing. -/
  | skipIntensityContainer
  /-- Video container on a non-pixel, non-mask modality: fold the temporal
  dimension, apply, unfold. -/
  | videoFold
  /-- Case `PatchSequential`: `NotImplementedError`. -/
  | patchFail
  /-- Geometric / container / erasing: invoke the registered applier. -/
  | applyKey
  /-- Any other `SequentialBase`: `ValueError`. -/
  | unsupportedSeq
  /-- Anything else: `NotImplementedError` naming the key and module. -/
  | notImplementedFail
  deriving Repr, DecidableEq

/-- The classification computed by the forward loop's `if`/`elif` chain
(`augment.py` lines 357–377), condition for condition. -/
def forwardBranchOf (module : Module) (dcate : DataKey) : Branch :=
  if dcate = DataKey.input then .inputApply
  else if module.isIntensity2D && dcate.isMember && !module.isRandomErasing then
    .skipIntensity
  else if module.isImageSequential && module.isIntensityOnly && dcate.isMember then
    .skipIntensityContainer
  else if module.isVideoSequential && !(dcate = DataKey.input ∨ dcate = DataKey.mask : Bool) then
    .videoFold
  else if module.isPatchSequential then .patchFail
  else if (module.isGeometric2D || module.isImageSequential || module.isRandomErasing)
      && dcate.isMember then .applyKey
  else if module.isSequentialBase then .unsupportedSeq
  else .notImplementedFail

/-- The classification computed by the inverse loop's `if`/`elif` chain
(`augment.py` lines 217–235), condition for condition (the inverse loop has
no `dcate == DataKey.INPUT` arm). -/
def inverseBranchOf (module : Module) (dcate : DataKey) : Branch :=
  if module.isIntensity2D && dcate.isMember && !module.isRandomErasing then
    .skipIntensity
  else if module.isImageSequential && module.isIntensityOnly && dcate.isMember then
    .skipIntensityContainer
  else if module.isVideoSequential && !(dcate = DataKey.input ∨ dcate = DataKey.mask : Bool) then
    .videoFold
  else if module.isPatchSequential then .patchFail
  else if (module.isGeometric2D || module.isImageSequential || module.isRandomErasing)
      && dcate.isMember then .applyKey
  else if module.isSequentialBase then .unsupportedSeq
  else .notImplementedFail

/-- C3: for every transform module and every non-pixel modality tag, the
forward dispatcher and the inverse dispatcher classify the (module, modality)
pair into the same branch — the two `if`/`elif` chains never disagree off the
pixel modality. -/
theorem forward_inverse_branch_agree (module : Module) (dcate : DataKey)
    (h : dcate ≠ DataKey.input) :
    forwardBranchOf module dcate = inverseBranchOf module dcate := by
  rcases module with e | _ | io | io | io | _ | _ <;> (try cases e) <;> (try cases io) <;>
    cases dcate <;> first | exact absurd rfl h | rfl

/-- Witness for C3 at a concrete (module, modality) pair. -/
theorem forward_inverse_branch_agree_witness :
    forwardBranchOf (Module.videoSeq false) DataKey.keypoints =
      inverseBranchOf (Module.videoSeq false) DataKey.keypoints :=
  forward_inverse_branch_agree (Module.videoSeq false) DataKey.keypoints (by decide)

/-- C4: for every non-pixel modality, a ledger record owned by an
intensity-only non-erasing transform — or by a container whose contents are
entirely intensity-only — is a no-op in both dispatch directions, whatever
the sampled parameter payload and whatever the external appliers do. -/
theorem intensity_only_noop (E : Externals P) (dcate : DataKey)
    (st : Tensor × Option Tensor) (input : Tensor) (p : ParamItem P)
    (hd : dcate ≠ DataKey.input)
    (hm : E.modules p.name = Module.intensity false ∨
      ((E.modules p.name).isImageSequential ∧ (E.modules p.name).isIntensityOnly)) :
    forwardStep E dcate st p = .ok st ∧ inverseStep E dcate input p = .ok input := by
  rcases hm with h | ⟨h1, h2⟩
  · constructor <;>
      simp [forwardStep, inverseStep, h, hd, Module.isIntensity2D, Module.isRandomErasing,
        DataKey.isMember]
  · rcases hE : E.modules p.name with e | _ | io | io | io | _ | _ <;>
      rw [hE] at h1 h2 <;>
      simp_all [forwardStep, inverseStep, Module.isIntensity2D, Module.isRandomErasing,
        Module.isImageSequential, Module.isIntensityOnly, Module.isVideoSequential,
        DataKey.isMember]

/-- Witness for C4 at a concrete intensity-only module and the mask
modality. -/
theorem intensity_only_noop_witness :
    let E : Externals Nat :=
      { modules := fun _ => Module.intensity false
        applyToInput := fun t l _ _ => (t, l)
        applyByKey := fun t l _ _ _ => (t, l)
        inverseByKey := fun t _ _ _ => t
        superForward := fun t l _ => (t, l, false)
        forwardParameters := fun _ => []
        containsLabelOperations := fun _ => false
        autofillDim := fun t _ _ => t.shape
        boxFromTensor := fun _ t => t
        boxToTensor := fun _ t => t }
    forwardStep E DataKey.mask (⟨[1], [5]⟩, none) ⟨"cj", 7⟩ = .ok (⟨[1], [5]⟩, none) ∧
      inverseStep E DataKey.mask ⟨[1], [5]⟩ ⟨"cj", 7⟩ = .ok ⟨[1], [5]⟩ :=
  intensity_only_noop _ DataKey.mask _ _ _ (by decide) (Or.inl rfl)

/-- C5: in the inverse pass, an erasing-style transform (`RandomErasing`,
classified as intensity-only) is not skipped by the intensity-only
short-circuit on non-pixel modalities: its registered inverse applier is
invoked. -/
theorem erasing_inverse_applies (E : Externals P) (dcate : DataKey)
    (input : Tensor) (p : ParamItem P) (hd : dcate ≠ DataKey.input)
    (hm : E.modules p.name = Module.intensity true) :
    inverseStep E dcate input p =
      .ok (E.inverseByKey input (Module.intensity true) (some p) dcate) := by
  simp [inverseStep, hm, Module.isIntensity2D, Module.isRandomErasing,
    Module.isImageSequential, Module.isVideoSequential, Module.isPatchSequential,
    Module.isAugBaseOrImageSeq, DataKey.isMember]

/-- Witness for C5 at a concrete erasing module and the bbox modality. -/
theorem erasing_inverse_applies_witness :
    let E : Externals Nat :=
      { modules := fun _ => Module.intensity true
        applyToInput := fun t l _ _ => (t, l)
        applyByKey := fun t l _ _ _ => (t, l)
        inverseByKey := fun t _ _ _ => { t with data := t.data.map (· + 1) }
        superForward := fun t l _ => (t, l, false)
        forwardParameters := fun _ => []
        containsLabelOperations := fun _ => false
        autofillDim := fun t _ _ => t.shape
        boxFromTensor := fun _ t => t
        boxToTensor := fun _ t => t }
    inverseStep E DataKey.bbox ⟨[1], [5]⟩ ⟨"re", 3⟩ = .ok ⟨[1], [6]⟩ :=
  erasing_inverse_applies _ DataKey.bbox _ _ (by decide) rfl

/-- C7: for every non-pixel modality, a record owned by a patch-grid
container that is not intensity-only (hence not short-circuited) fails with
the NotSupported error in both dispatch directions. -/
theorem patch_not_supported (E : Externals P) (dcate : DataKey)
    (st : Tensor × Option Tensor) (input : Tensor) (p : ParamItem P)
    (hd : dcate ≠ DataKey.input)
    (hm : E.modules p.name = Module.patchSeq false) :
    forwardStep E dcate st p = .error .patchNotSupported ∧
      inverseStep E dcate input p = .error .patchNotSupported := by
  constructor <;>
    simp [forwardStep, inverseStep, hm, hd, Module.isIntensity2D, Module.isRandomErasing,
      Module.isImageSequential, Module.isIntensityOnly, Module.isVideoSequential,
      Module.isPatchSequential, DataKey.isMember]

/-- Witness for C7 at a concrete patch container and the keypoints
modality. -/
theorem patch_not_supported_witness :
    let E : Externals Nat :=
      { modules := fun _ => Module.patchSeq false
        applyToInput := fun t l _ _ => (t, l)
        applyByKey := fun t l _ _ _ => (t, l)
        inverseByKey := fun t _ _ _ => t
        superForward := fun t l _ => (t, l, false)
        forwardParameters := fun _ => []
        containsLabelOperations := fun _ => false
        autofillDim := fun t _ _ => t.shape
        boxFromTensor := fun _ t => t
        boxToTensor := fun _ t => t }
    forwardStep E DataKey.keypoints (⟨[1], [5]⟩, none) ⟨"ps", 2⟩ =
        .error .patchNotSupported ∧
      inverseStep E DataKey.keypoints ⟨[1], [5]⟩ ⟨"ps", 2⟩ = .error .patchNotSupported :=
  patch_not_supported _ DataKey.keypoints _ _ _ (by decide) rfl

/-- C6 counterexample: a temporal/video container whose contents are all
intensity-only is short-circuited by the intensity-only-container skip
(which is checked first), so both dispatchers return the tensor unchanged
and the per-frame transform is never applied — the fold-apply-unfold
composite the claim describes would have produced different data. -/
theorem video_intensity_only_skipped :
    let E : Externals Nat :=
      { modules := fun _ => Module.videoSeq true
        applyToInput := fun t l _ _ => (t, l)
        applyByKey := fun t l _ _ _ => ({ t with data := t.data.map (· + 1) }, l)
        inverseByKey := fun t _ _ _ => { t with data := t.data.map (· + 1) }
        superForward := fun t l _ => (t, l, false)
        forwardParameters := fun _ => []
        containsLabelOperations := fun _ => false
        autofillDim := fun t _ _ => t.shape
        boxFromTensor := fun _ t => t
        boxToTensor := fun _ t => t }
    let t : Tensor := ⟨[1, 2, 2], [0, 0, 0, 0]⟩
    forwardStep E DataKey.keypoints (t, none) ⟨"v", 0⟩ = .ok (t, none) ∧
      inverseStep E DataKey.keypoints t ⟨"v", 0⟩ = .ok t ∧
      ((E.applyByKey (t.viewInferFirst (t.shape.drop 2)) none (Module.videoSeq true)
            (some ⟨"v", 0⟩) DataKey.keypoints).1).viewInferSecond t.size0
          ((E.applyByKey (t.viewInferFirst (t.shape.drop 2)) none (Module.videoSeq true)
            (some ⟨"v", 0⟩) DataKey.keypoints).1.shape.drop 1) ≠ t := by
  refine ⟨rfl, rfl, by decide⟩

/-- C6 (amended): for every modality that is neither pixel-grid nor mask,
when the owning transform is a temporal/video container that is *not*
intensity-only (an intensity-only one is skipped by the earlier
short-circuit), both dispatchers fold the leading temporal dimension into
the batch dimension, apply the per-frame transform to the folded tensor,
and unfold back, so the output regains the `(batch, time, ...)`
leading-dimension layout of the input (given shape-preserving per-frame
appliers and non-degenerate dimensions). -/
theorem video_fold_unfold (E : Externals P) (dcate : DataKey) (p : ParamItem P)
    (t : Tensor) (label : Option Tensor) (b tm : Nat) (rest : List Nat)
    (hm : E.modules p.name = Module.videoSeq false)
    (hd1 : dcate ≠ DataKey.input) (hd2 : dcate ≠ DataKey.mask)
    (hshape : t.shape = b :: tm :: rest)
    (hb : 0 < b) (hr : 0 < rest.prod)
    (happ : ∀ x l q d, ((E.applyByKey x l (Module.videoSeq false) q d).1).shape = x.shape)
    (hinv : ∀ x q d, (E.inverseByKey x (Module.videoSeq false) q d).shape = x.shape) :
    (t.viewInferFirst rest).shape = b * tm :: rest ∧
      (∃ out lbl, forwardStep E dcate (t, label) p = .ok (out, lbl) ∧
        out = ((E.applyByKey (t.viewInferFirst rest) label (Module.videoSeq false)
          (some p) dcate).1).viewInferSecond b rest ∧
        out.shape = t.shape) ∧
      ∃ out, inverseStep E dcate t p = .ok out ∧
        out = (E.inverseByKey (t.viewInferFirst rest) (Module.videoSeq false)
          (some p) dcate).viewInferSecond b rest ∧
        out.shape = t.shape := by
  have hfold : (t.viewInferFirst rest).shape = b * tm :: rest := by
    simp only [Tensor.viewInferFirst, Tensor.numel, hshape, List.prod_cons]
    rw [← Nat.mul_assoc, Nat.mul_div_cancel _ hr]
  have hdrop2 : t.shape.drop 2 = rest := by rw [hshape]; rfl
  have hsize0 : t.size0 = b := by simp [Tensor.size0, hshape]
  have hnd : ¬(dcate = DataKey.input ∨ dcate = DataKey.mask) := by
    rintro (h | h) <;> [exact hd1 h; exact hd2 h]
  have hsecond : ∀ x : Tensor, x.shape = b * tm :: rest →
      (x.viewInferSecond b rest).shape = b :: tm :: rest := by
    intro x hx
    simp only [Tensor.viewInferSecond, Tensor.numel, hx, List.prod_cons]
    have : b * tm * rest.prod = tm * (b * rest.prod) := by ring
    rw [this, Nat.mul_div_cancel _ (Nat.mul_pos hb hr)]
  have hashape : ((E.applyByKey (t.viewInferFirst rest) label (Module.videoSeq false)
      (some p) dcate).1).shape = b * tm :: rest := by rw [happ, hfold]
  have hishape : (E.inverseByKey (t.viewInferFirst rest) (Module.videoSeq false)
      (some p) dcate).shape = b * tm :: rest := by rw [hinv, hfold]
  refine ⟨hfold,
    ⟨((E.applyByKey (t.viewInferFirst rest) label (Module.videoSeq false)
        (some p) dcate).1).viewInferSecond b rest,
      (E.applyByKey (t.viewInferFirst rest) label (Module.videoSeq false)
        (some p) dcate).2, ?_, rfl, ?_⟩,
    ⟨(E.inverseByKey (t.viewInferFirst rest) (Module.videoSeq false)
        (some p) dcate).viewInferSecond b rest, ?_, rfl, ?_⟩⟩
  · cases dcate <;> first
      | exact absurd rfl hd1
      | exact absurd rfl hd2
      | simp [forwardStep, hm, hdrop2, hsize0, hashape, Module.isIntensity2D,
          Module.isRandomErasing, Module.isImageSequential, Module.isIntensityOnly,
          Module.isVideoSequential, Module.isPatchSequential, Module.isGeometric2D,
          Module.isSequentialBase, DataKey.isMember]
  · rw [hsecond _ hashape, hshape]
  · cases dcate <;> first
      | exact absurd rfl hd1
      | exact absurd rfl hd2
      | simp [inverseStep, hm, hdrop2, hsize0, hishape, Module.isIntensity2D,
          Module.isRandomErasing, Module.isImageSequential, Module.isIntensityOnly,
          Module.isVideoSequential, Module.isPatchSequential, Module.isGeometric2D,
          Module.isSequentialBase, Module.isAugBaseOrImageSeq, DataKey.isMember]
  · rw [hsecond _ hishape, hshape]

/-- Witness for the amended C6 at a concrete video container, keypoints
modality, and a `(2, 3, 4)`-shaped tensor. -/
theorem video_fold_unfold_witness :
    let E : Externals Nat :=
      { modules := fun _ => Module.videoSeq false
        applyToInput := fun t l _ _ => (t, l)
        applyByKey := fun t l _ _ _ => ({ t with data := t.data.map (· + 1) }, l)
        inverseByKey := fun t _ _ _ => { t with data := t.data.map (· - 1) }
        superForward := fun t l _ => (t, l, false)
        forwardParameters := fun _ => []
        containsLabelOperations := fun _ => false
        autofillDim := fun t _ _ => t.shape
        boxFromTensor := fun _ t => t
        boxToTensor := fun _ t => t }
    let t : Tensor := ⟨[2, 3, 4], List.replicate 24 0⟩
    (t.viewInferFirst [4]).shape = 2 * 3 :: [4] ∧
      (∃ out lbl, forwardStep E DataKey.keypoints (t, none) ⟨"v", 1⟩ = .ok (out, lbl) ∧
        out = ((E.applyByKey (t.viewInferFirst [4]) none (Module.videoSeq false)
          (some ⟨"v", 1⟩) DataKey.keypoints).1).viewInferSecond 2 [4] ∧
        out.shape = t.shape) ∧
      ∃ out, inverseStep E DataKey.keypoints t ⟨"v", 1⟩ = .ok out ∧
        out = (E.inverseByKey (t.viewInferFirst [4]) (Module.videoSeq false)
          (some ⟨"v", 1⟩) DataKey.keypoints).viewInferSecond 2 [4] ∧
        out.shape = t.shape :=
  video_fold_unfold _ DataKey.keypoints _ _ none 2 3 [4] rfl (by decide) (by decide)
    rfl (by decide) (by decide) (fun x l q d => by simp) (fun x q d => by simp)

/-- C8: calling `inverse` with no explicit `params` when no prior forward
pass has stored a ledger raises the MissingParameters error (a `ValueError`),
never silently returning the inputs. -/
theorem inverse_missing_params (E : Externals P) (s : AugState P)
    (args : List Tensor) (dataKeys? : Option (List DataKey))
    (hlen : args.length = (match dataKeys? with
      | none => s.dataKeys
      | some ks => ks).length)
    (hstore : s.storedParams = none) :
    inv E s args none dataKeys? = .error .missingParams := by
  cases dataKeys? <;> simp_all [inv]

/-- Witness for C8 at a freshly constructed state. -/
theorem inverse_missing_params_witness :
    let E : Externals Nat :=
      { modules := fun _ => Module.geometric
        applyToInput := fun t l _ _ => (t, l)
        applyByKey := fun t l _ _ _ => (t, l)
        inverseByKey := fun t _ _ _ => t
        superForward := fun t l _ => (t, l, false)
        forwardParameters := fun _ => []
        containsLabelOperations := fun _ => false
        autofillDim := fun t _ _ => t.shape
        boxFromTensor := fun _ t => t
        boxToTensor := fun _ t => t }
    let s : AugState Nat :=
      { dataKeys := [DataKey.input]
        storedParams := none
        returnLabel := false
        containsVideoSequential := false }
    inv E s [⟨[1], [5]⟩] none none = .error .missingParams :=
  inverse_missing_params _ _ _ none (by decide) rfl

/-- C9 counterexample: `forward` called with an explicit `data_keys` list
whose first element is the mask tag (not the pixel-grid tag) succeeds — it
is not rejected with an error. -/
theorem forward_first_key_not_checked :
    let E : Externals Nat :=
      { modules := fun _ => Module.geometric
        applyToInput := fun t l _ _ => (t, l)
        applyByKey := fun t l _ _ _ => (t, l)
        inverseByKey := fun t _ _ _ => t
        superForward := fun t l _ => (t, l, false)
        forwardParameters := fun _ => []
        containsLabelOperations := fun _ => false
        autofillDim := fun t _ _ => t.shape
        boxFromTensor := fun _ t => t
        boxToTensor := fun _ t => t }
    let s : AugState Nat :=
      { dataKeys := [DataKey.input]
        storedParams := none
        returnLabel := false
        containsVideoSequential := false }
    let t : Tensor := ⟨[1, 1, 2, 2], [1, 2, 3, 4]⟩
    fwd E s [t, t] none none (some [DataKey.mask, DataKey.input]) =
      .ok ([t, t], none,
        { dataKeys := [DataKey.mask, DataKey.input]
          storedParams := some []
          returnLabel := false
          containsVideoSequential := false }) := by
  rfl

/-- C9 (amended): the first-element check is enforced at construction —
`__init__` rejects a `data_keys` list whose first element is not the
pixel-grid tag; `forward` does not re-check the first element of an
explicitly supplied `data_keys` list, and when no ledger is supplied it
instead requires the pixel-grid tag to be present somewhere in the keys,
erroring otherwise. -/
theorem first_key_input_enforced (mods : List Module) (k : DataKey)
    (ks : List DataKey) (hk : k ≠ DataKey.input)
    (E : Externals P) (s : AugState P) (args : List Tensor) (label : Option Tensor)
    (dk : List DataKey) (hlen : args.length = dk.length)
    (hin : DataKey.input ∉ dk) :
    init P mods (k :: ks) = .error .firstKeyNotInput ∧
      fwd E s args label none (some dk) = .error .paramsRequired := by
  constructor
  · simp [init, hk]
  · simp [fwd, hlen, hin]

/-- Witness for the amended C9. -/
theorem first_key_input_enforced_witness :
    let E : Externals Nat :=
      { modules := fun _ => Module.geometric
        applyToInput := fun t l _ _ => (t, l)
        applyByKey := fun t l _ _ _ => (t, l)
        inverseByKey := fun t _ _ _ => t
        superForward := fun t l _ => (t, l, false)
        forwardParameters := fun _ => []
        containsLabelOperations := fun _ => false
        autofillDim := fun t _ _ => t.shape
        boxFromTensor := fun _ t => t
        boxToTensor := fun _ t => t }
    let s : AugState Nat :=
      { dataKeys := [DataKey.input]
        storedParams := none
        returnLabel := false
        containsVideoSequential := false }
    init Nat [] [DataKey.mask, DataKey.input] = .error .firstKeyNotInput ∧
      fwd E s [⟨[1], [5]⟩] none none (some [DataKey.mask]) =
        .error .paramsRequired :=
  first_key_input_enforced [] DataKey.mask [DataKey.input] (by decide) _ _ _ none
    [DataKey.mask] (by decide) (by decide)

/-- C10: an explicit `data_keys` argument to `forward` overwrites the
stored `self.data_keys`, so every subsequent `forward` or `inverse` call
that omits `data_keys` behaves exactly as if the overwriting keys had been
passed. -/
theorem forward_overwrites_data_keys (E : Externals P) (s : AugState P)
    (args : List Tensor) (label : Option Tensor)
    (params? : Option (List (ParamItem P))) (ks : List DataKey)
    (outs : List Tensor) (lbl : Option Tensor) (s' : AugState P)
    (h : fwd E s args label params? (some ks) = .ok (outs, lbl, s')) :
    s'.dataKeys = ks ∧
      (∀ args2 label2 params2,
        fwd E s' args2 label2 params2 none = fwd E s' args2 label2 params2 (some ks)) ∧
      ∀ args2 params2, inv E s' args2 params2 none = inv E s' args2 params2 (some ks) := by
  have hdk : s'.dataKeys = ks := by
    simp only [fwd] at h
    split at h
    · exact absurd h (by simp)
    · split at h
      · split at h
        · simp only [Except.ok.injEq, Prod.mk.injEq] at h
          rw [← h.2.2]
        · exact absurd h (by simp)
      · split at h
        · split at h
          · simp only [Except.ok.injEq, Prod.mk.injEq] at h
            rw [← h.2.2]
          · exact absurd h (by simp)
        · exact absurd h (by simp)
  have hs : ({ s' with dataKeys := ks } : AugState P) = s' := by
    cases s'
    simp_all
  refine ⟨hdk, fun args2 label2 params2 => ?_, fun args2 params2 => ?_⟩
  · simp only [fwd, hs, hdk]
  · simp only [inv, hdk]

/-- Witness for C10: a concrete forward call with explicit keys, followed by
the key-omitting equivalences. -/
theorem forward_overwrites_data_keys_witness :
    let E : Externals Nat :=
      { modules := fun _ => Module.geometric
        applyToInput := fun t l _ _ => (t, l)
        applyByKey := fun t l _ _ _ => (t, l)
        inverseByKey := fun t _ _ _ => t
        superForward := fun t l _ => (t, l, false)
        forwardParameters := fun _ => []
        containsLabelOperations := fun _ => false
        autofillDim := fun t _ _ => t.shape
        boxFromTensor := fun _ t => t
        boxToTensor := fun _ t => t }
    let s' : AugState Nat :=
      { dataKeys := [DataKey.input, DataKey.mask]
        storedParams := some []
        returnLabel := false
        containsVideoSequential := false }
    s'.dataKeys = [DataKey.input, DataKey.mask] ∧
      (∀ args2 label2 params2, fwd E s' args2 label2 params2 none =
        fwd E s' args2 label2 params2 (some [DataKey.input, DataKey.mask])) ∧
      ∀ args2 params2, inv E s' args2 params2 none =
        inv E s' args2 params2 (some [DataKey.input, DataKey.mask]) :=
  forward_overwrites_data_keys _
    { dataKeys := [DataKey.input]
      storedParams := none
      returnLabel := false
      containsVideoSequential := false }
    [⟨[1], [5]⟩, ⟨[1], [5]⟩] none none
    [DataKey.input, DataKey.mask] [⟨[1], [5]⟩, ⟨[1], [5]⟩] none _ rfl

/-- The observable result of `forward` — the per-modality output tensors and the
label — with the instance-state update projected away. -/
def fwdOutputs (E : Externals P) (s : AugState P) (args : List Tensor)
    (label : Option Tensor) (params? : Option (List (ParamItem P)))
    (dataKeys? : Option (List DataKey)) :
    Except AugError (List Tensor × Option Tensor) :=
  (fwd E s args label params? dataKeys?).map fun r => (r.1, r.2.1)

/-- The modality loop does not consult the random sampler
(`forward_parameters`) or the shape normalizer feeding it. -/
theorem fwdLoop_sampler_irrelevant (E : Externals P)
    (f g : List Nat → List (ParamItem P)) (a a' : Tensor → Nat → Nat → List Nat)
    (ps : List (ParamItem P)) (items : List ((PreArg × DataKey) × Option Tensor)) :
    ∀ label, fwdLoop { E with forwardParameters := f, autofillDim := a } ps items label =
      fwdLoop { E with forwardParameters := g, autofillDim := a' } ps items label := by
  induction items with
  | nil => intro label; rfl
  | cons it rest ih =>
    intro label
    obtain ⟨ad, out?⟩ := it
    cases out? with
    | some t => simp only [fwdLoop]; rw [ih]
    | none =>
      simp only [fwdLoop]
      have hfm : forwardModality { E with forwardParameters := f, autofillDim := a }
            ad.2 ps (ad.1.dataOf, label) =
          forwardModality { E with forwardParameters := g, autofillDim := a' }
            ad.2 ps (ad.1.dataOf, label) := rfl
      have hp : packOutput { E with forwardParameters := f, autofillDim := a } =
          packOutput { E with forwardParameters := g, autofillDim := a' } := rfl
      rw [hfm, hp]
      cases hM : forwardModality { E with forwardParameters := g, autofillDim := a' }
          ad.2 ps (ad.1.dataOf, label) with
      | ok r => simp only [bind, Except.bind]; rw [ih]
      | error e => simp only [bind, Except.bind]

/-- Lemma: `fwdMain` does not consult the random sampler or the shape
normalizer. -/
theorem fwdMain_sampler_irrelevant (E : Externals P)
    (f g : List Nat → List (ParamItem P)) (a a' : Tensor → Nat → Nat → List Nat)
    (pre : List PreArg) (dk : List DataKey) (label : Option Tensor)
    (ps : List (ParamItem P)) :
    fwdMain { E with forwardParameters := f, autofillDim := a } pre dk label ps =
      fwdMain { E with forwardParameters := g, autofillDim := a' } pre dk label ps := by
  simp only [fwdMain]
  rw [fwdLoop_sampler_irrelevant E f g a a', fwdLoop_sampler_irrelevant E f g a a']

/-- C1: with an explicitly supplied ledger, `forward` bypasses all random
parameter sampling and is a pure function of the ledger, inputs, label and
keys: neither the sampler (`forward_parameters`), nor the shape normalizer
feeding it, nor the mutable instance state (e.g. as left behind by any
earlier call) can influence the output tensors of any modality — so two
calls with the identical ledger, identical inputs and identical data keys
produce identical outputs. -/
theorem replay_determinism (E : Externals P)
    (f g : List Nat → List (ParamItem P)) (a a' : Tensor → Nat → Nat → List Nat)
    (s s' : AugState P) (args : List Tensor) (label : Option Tensor)
    (L : List (ParamItem P)) (ks : List DataKey) :
    fwdOutputs { E with forwardParameters := f, autofillDim := a } s args label
        (some L) (some ks) =
      fwdOutputs { E with forwardParameters := g, autofillDim := a' } s' args label
        (some L) (some ks) := by
  have hpre : argumentsPreproc { E with forwardParameters := f, autofillDim := a } args ks =
      argumentsPreproc { E with forwardParameters := g, autofillDim := a' } args ks := rfl
  simp only [fwdOutputs, fwd]
  rw [hpre, fwdMain_sampler_irrelevant E f g a a']
  cases hF : fwdMain { E with forwardParameters := g, autofillDim := a' }
      (argumentsPreproc { E with forwardParameters := g, autofillDim := a' } args ks)
      ks label L <;> split <;> rfl

/-- Modelled from the spec: the external sequential container's forward pass
on the pixel modality (`ImageSequential.forward`, not part of this source
file).  Per the spec, the container `forward(pixel_tensor, label,
params=ledger)` applies each transform of the ledger in ledger order to the
pixel tensor via the per-transform applier registry, and
`contains_label_operations(ledger)` governs whether a label is returned
(the `Bool` mirrors the `return_label` flag the container leaves behind). -/
def specContainerForward (E : Externals P) (t : Tensor) (label : Option Tensor)
    (ps : List (ParamItem P)) : Tensor × Option Tensor × Bool :=
  let r := ps.foldl
    (fun (st : Tensor × Option Tensor) p =>
      E.applyByKey st.1 st.2 (E.modules p.name) (some p) DataKey.input)
    (t, label)
  (r.1, r.2, E.containsLabelOperations ps)

/-- A `foldlM` over `Except` whose every step succeeds with a known pure
value computes the corresponding pure `foldl`. -/
theorem foldlM_ok_of {α β : Type} (f : β → α → Except AugError β)
    (g : β → α → β) (l : List α) (h : ∀ x ∈ l, ∀ b, f b x = .ok (g b x)) :
    ∀ init, l.foldlM f init = .ok (l.foldl g init) := by
  induction l with
  | nil => intro init; rfl
  | cons p l ih =>
    intro init
    simp only [List.foldlM, List.foldl, h p (List.mem_cons_self p l)]
    exact ih (fun x hx b => h x (List.mem_cons_of_mem p hx) b) (g init p)

/-- A `foldlM` over `Except` whose every step succeeds, succeeds. -/
theorem foldlM_ok_ex {α β : Type} (f : β → α → Except AugError β) (l : List α)
    (h : ∀ x ∈ l, ∀ b, ∃ y, f b x = .ok y) :
    ∀ init, ∃ y, l.foldlM f init = .ok y := by
  induction l with
  | nil => intro init; exact ⟨init, rfl⟩
  | cons p l ih =>
    intro init
    obtain ⟨y, hy⟩ := h p (List.mem_cons_self p l) init
    obtain ⟨z, hz⟩ := ih (fun x hx b => h x (List.mem_cons_of_mem p hx) b) y
    refine ⟨z, ?_⟩
    simp only [List.foldlM, hy]
    exact hz

/-- A `mapM` over `Except` whose every element succeeds with a known value
computes the corresponding pure `map`. -/
theorem mapM_ok_of {α β : Type} (f : α → Except AugError β) (g : α → β)
    (l : List α) (h : ∀ x ∈ l, f x = .ok (g x)) :
    l.mapM f = .ok (l.map g) := by
  induction l with
  | nil => rfl
  | cons p l ih =>
    rw [List.mapM_cons, h p (List.mem_cons_self p l),
      ih (fun x hx => h x (List.mem_cons_of_mem p hx))]
    rfl

/-- A geometric transform's record is dispatched to its inverse applier on
every modality in the inverse loop. -/
theorem inverseStep_geo (E : Externals P) (d : DataKey) (x : Tensor)
    (p : ParamItem P) (h : E.modules p.name = Module.geometric) :
    inverseStep E d x p = .ok (E.inverseByKey x Module.geometric (some p) d) := by
  cases d <;> simp [inverseStep, h, Module.isIntensity2D, Module.isRandomErasing,
    Module.isImageSequential, Module.isIntensityOnly, Module.isVideoSequential,
    Module.isPatchSequential, Module.isGeometric2D, Module.isSequentialBase,
    Module.isAugBaseOrImageSeq, DataKey.isMember]

/-- A geometric transform's record never makes the forward loop fail. -/
theorem forwardStep_geo_ok (E : Externals P) (d : DataKey)
    (st : Tensor × Option Tensor) (p : ParamItem P)
    (h : E.modules p.name = Module.geometric) :
    ∃ y, forwardStep E d st p = .ok y := by
  by_cases hd : d = DataKey.input
  · exact ⟨E.applyToInput st.1 st.2 (E.modules p.name) p, by simp [forwardStep, hd]⟩
  · refine ⟨E.applyByKey st.1 st.2 Module.geometric (some p) d, ?_⟩
    cases d <;> simp_all [forwardStep, h, Module.isIntensity2D, Module.isRandomErasing,
      Module.isImageSequential, Module.isIntensityOnly, Module.isVideoSequential,
      Module.isPatchSequential, Module.isGeometric2D, Module.isSequentialBase,
      DataKey.isMember]

/-- If every ledger record dispatches successfully, the whole modality loop
of `forward` succeeds, with one output per item. -/
theorem fwdLoop_ok_ex (E : Externals P) (ps : List (ParamItem P))
    (h : ∀ d st (p : ParamItem P), p ∈ ps → ∃ y, forwardStep E d st p = .ok y) :
    ∀ (items : List ((PreArg × DataKey) × Option Tensor)) (label : Option Tensor),
      ∃ ts l, fwdLoop E ps items label = .ok (ts, l) ∧ ts.length = items.length := by
  intro items
  induction items with
  | nil => intro label; exact ⟨[], label, rfl, rfl⟩
  | cons it rest ih =>
    intro label
    obtain ⟨ad, out?⟩ := it
    cases out? with
    | some t =>
      obtain ⟨ts, l, h1, h2⟩ := ih label
      exact ⟨t :: ts, l, by simp only [fwdLoop, h1, bind, Except.bind], by simp [h2]⟩
    | none =>
      obtain ⟨y, hy⟩ :=
        foldlM_ok_ex (forwardStep E ad.2) ps (fun p hp b => h ad.2 b p hp)
          (ad.1.dataOf, label)
      obtain ⟨ts, l, h1, h2⟩ := ih y.2
      refine ⟨packOutput E ad.1 y.1 :: ts, l, ?_, by simp [h2]⟩
      simp only [fwdLoop, forwardModality, hy, bind, Except.bind, h1]

/-- Pure round trip: folding the per-record inverse appliers in reverse
ledger order over the result of folding the forward appliers in ledger
order restores the pixel tensor, provided each inverse applier undoes its
forward applier. -/
theorem fold_round_trip (E : Externals P) :
    ∀ ps : List (ParamItem P),
      (∀ p ∈ ps, E.modules p.name = Module.geometric) →
      (∀ x l q, q ∈ ps →
        E.inverseByKey (E.applyByKey x l Module.geometric (some q) DataKey.input).1
          Module.geometric (some q) DataKey.input = x) →
      ∀ st : Tensor × Option Tensor,
        ps.reverse.foldl
          (fun x q => E.inverseByKey x (E.modules q.name) (some q) DataKey.input)
          ((ps.foldl (fun st q =>
              E.applyByKey st.1 st.2 (E.modules q.name) (some q) DataKey.input) st).1)
          = st.1 := by
  intro ps
  induction ps with
  | nil => intro _ _ st; rfl
  | cons p ps ih =>
    intro hGeo hInv st
    have hp := hGeo p (List.mem_cons_self p ps)
    rw [List.reverse_cons, List.foldl_append, List.foldl_cons, List.foldl_cons,
      List.foldl_nil,
      ih (fun q hq => hGeo q (List.mem_cons_of_mem p hq))
        (fun x l q hq => hInv x l q (List.mem_cons_of_mem p hq)) _,
      hp]
    exact hInv st.1 st.2 p (List.mem_cons_self p ps)

/-- C2: for a purely geometric pipeline (every ledger record owned by a
geometric transform) and a valid (tensor, tags) input — pixel-grid tag
first, as the constructor requires — `forward` followed by `inverse` with
the very ledger retained by that forward pass restores the pixel-modality
tensor exactly, provided each transform's registered inverse applier undoes
its forward applier on the pixel modality.  The external container's pixel
pass, which lives outside this source file, is modelled from the spec by
`specContainerForward`. -/
theorem geometric_forward_inverse_pixel (E : Externals P) (s : AugState P)
    (a : Tensor) (as : List Tensor) (label : Option Tensor)
    (ps : List (ParamItem P)) (rest : List DataKey)
    (hlen : as.length = rest.length)
    (hSuper : E.superForward = specContainerForward E)
    (hGeo : ∀ p ∈ ps, E.modules p.name = Module.geometric)
    (hInv : ∀ x l q, q ∈ ps →
      E.inverseByKey (E.applyByKey x l Module.geometric (some q) DataKey.input).1
        Module.geometric (some q) DataKey.input = x) :
    ∃ outs lbl s',
      fwd E s (a :: as) label (some ps) (some (DataKey.input :: rest)) =
        .ok (outs, lbl, s') ∧
      ∃ iouts, inv E s' outs none (some (DataKey.input :: rest)) = .ok iouts ∧
        iouts.head? = some a := by
  have hstep : ∀ d st (p : ParamItem P), p ∈ ps → ∃ y, forwardStep E d st p = .ok y :=
    fun d st p hp => forwardStep_geo_ok E d st p (hGeo p hp)
  obtain ⟨ts, l, hloop, hlenloop⟩ :=
    fwdLoop_ok_ex E ps hstep
      (((argumentsPreproc E as rest).zip rest).zip (List.replicate rest.length none))
      (if (specContainerForward E a label ps).2.2
        then (specContainerForward E a label ps).2.1 else label)
  have hts : ts.length = rest.length := by
    simpa [argumentsPreproc, hlen] using hlenloop
  have hpre : argumentsPreproc E (a :: as) (DataKey.input :: rest) =
      .plain a :: argumentsPreproc E as rest := rfl
  have hmain : fwdMain E (argumentsPreproc E (a :: as) (DataKey.input :: rest))
      (DataKey.input :: rest) label ps =
      .ok ((specContainerForward E a label ps).1 :: ts, l,
        (specContainerForward E a label ps).2.2) := by
    simp only [fwdMain, hpre, hSuper]
    rw [if_pos (List.mem_cons_self DataKey.input rest)]
    simp only [List.indexOf_cons_self, List.getD_cons_zero, PreArg.dataOf,
      List.length_cons, List.replicate_succ, List.set_cons_zero, List.zip_cons_cons,
      fwdLoop]
    simp only [List.zip] at hloop
    rw [hloop]
    rfl
  have hinverseM : ∀ (d : DataKey) (x : Tensor),
      inverseModality E d ps x = .ok (ps.reverse.foldl
        (fun y q => E.inverseByKey y (E.modules q.name) (some q) d) x) := by
    intro d x
    unfold inverseModality
    refine foldlM_ok_of _ _ _ (fun q hq b => ?_) x
    rw [show E.modules q.name = Module.geometric from hGeo q (List.mem_reverse.mp hq)]
    exact inverseStep_geo E d b q (hGeo q (List.mem_reverse.mp hq))
  refine ⟨(specContainerForward E a label ps).1 :: ts, l,
    { dataKeys := DataKey.input :: rest
      storedParams := some ps
      returnLabel := (specContainerForward E a label ps).2.2 || l.isSome
        || E.containsLabelOperations ps
      containsVideoSequential := s.containsVideoSequential }, ?_, ?_⟩
  · simp only [fwd]
    rw [if_neg (by simp [hlen]), hmain]
    simp [List.mem_cons_self]
  · have hinvCore : invCore E
        (argumentsPreproc E ((specContainerForward E a label ps).1 :: ts)
          (DataKey.input :: rest))
        (DataKey.input :: rest) ps =
        .ok (((argumentsPreproc E ((specContainerForward E a label ps).1 :: ts)
            (DataKey.input :: rest)).zip (DataKey.input :: rest)).map
          (fun ad => packOutput E ad.1 (ps.reverse.foldl
            (fun y q => E.inverseByKey y (E.modules q.name) (some q) ad.2)
            ad.1.dataOf))) := by
      unfold invCore
      refine mapM_ok_of _ _ _ (fun ad _ => ?_)
      rw [hinverseM ad.2 ad.1.dataOf]
      rfl
    refine ⟨((argumentsPreproc E ((specContainerForward E a label ps).1 :: ts)
        (DataKey.input :: rest)).zip (DataKey.input :: rest)).map
      (fun ad => packOutput E ad.1 (ps.reverse.foldl
        (fun y q => E.inverseByKey y (E.modules q.name) (some q) ad.2)
        ad.1.dataOf)), ?_, ?_⟩
    · simp only [inv]
      rw [if_neg (by simp [hts])]
      exact hinvCore
    · have hpre2 : argumentsPreproc E ((specContainerForward E a label ps).1 :: ts)
          (DataKey.input :: rest) =
          .plain (specContainerForward E a label ps).1 ::
            argumentsPreproc E ts rest := rfl
      rw [hpre2]
      simp only [List.zip_cons_cons, List.map_cons, List.head?_cons]
      show some (ps.reverse.foldl
        (fun y q => E.inverseByKey y (E.modules q.name) (some q) DataKey.input)
        ((ps.foldl (fun st q =>
          E.applyByKey st.1 st.2 (E.modules q.name) (some q) DataKey.input)
          (a, label)).1)) = some a
      rw [fold_round_trip E ps hGeo hInv (a, label)]

/-- Concrete collaborators for the round-trip witness: a "geometric" applier
that increments every data element, and its exact inverse. -/
def roundTripDemoBase : Externals Nat :=
  { modules := fun _ => Module.geometric
    applyToInput := fun t l _ _ => (t, l)
    applyByKey := fun t l _ _ _ => ({ t with data := t.data.map (· + 1) }, l)
    inverseByKey := fun t _ _ _ => { t with data := t.data.map (· - 1) }
    superForward := fun t l _ => (t, l, false)
    forwardParameters := fun _ => []
    containsLabelOperations := fun _ => false
    autofillDim := fun t _ _ => t.shape
    boxFromTensor := fun _ t => t
    boxToTensor := fun _ t => t }

/-- The witness collaborators, with the container's pixel pass given by the
spec model. -/
def roundTripDemo : Externals Nat :=
  { roundTripDemoBase with superForward := specContainerForward roundTripDemoBase }

/-- Witness for C2 at a one-transform geometric pipeline on a concrete
`(1, 1, 2, 2)` pixel tensor. -/
theorem geometric_forward_inverse_pixel_witness :
    ∃ outs lbl s',
      fwd roundTripDemo
          { dataKeys := [DataKey.input]
            storedParams := none
            returnLabel := false
            containsVideoSequential := false }
          [⟨[1, 1, 2, 2], [1, 2, 3, 4]⟩] none (some [⟨"rot", 0⟩])
          (some [DataKey.input]) =
        .ok (outs, lbl, s') ∧
      ∃ iouts, inv roundTripDemo s' outs none (some [DataKey.input]) = .ok iouts ∧
        iouts.head? = some ⟨[1, 1, 2, 2], [1, 2, 3, 4]⟩ :=
  geometric_forward_inverse_pixel roundTripDemo
    { dataKeys := [DataKey.input]
      storedParams := none
      returnLabel := false
      containsVideoSequential := false }
    ⟨[1, 1, 2, 2], [1, 2, 3, 4]⟩ [] none [⟨"rot", 0⟩] [] rfl rfl
    (fun p _ => rfl)
    (fun x l q _ => by
      cases x
      simp [roundTripDemo, roundTripDemoBase, Function.comp_def])

end KorniaAug
